import Mathlib

/-!
Verification of the calendar / recurrence core of the PersonalAssistant
repository (a browser calendar and task manager).

The date-grid helpers (`daysInMonth`, `changeCalendarMonth`,
`changeCalendarYear`) and the mark-done handlers are embedded from the
JavaScript source (`calendar-logic.js`, `app.js`, `data-service.js`).
JavaScript `Date` built-ins that these functions call (`new Date(y, m, d)`,
`setMonth`, `setFullYear`, `Date.parse`) are embedded following the
ECMAScript specification of those built-ins, restricted to the shapes of
input that occur at the call sites.

The recurrence-aware occurrence generator (`generateOccurrencesForMonth`
taking an entity list, a kind tag, a year and a month) is called from
`app.js` but its definition is not part of the source snapshot (the file
`calendar-logic.js` present in the snapshot holds only an incompatible
placeholder of the same name); it is modelled from the specification, as
are the projector contracts that depend on it.
-/

namespace PersonalAssistant

/-- Proleptic Gregorian leap-year rule, used by the ECMAScript calendar
arithmetic that the source's date code runs on. -/
def isLeapYear (y : Int) : Prop :=
  (y % 4 = 0 ∧ y % 100 ≠ 0) ∨ y % 400 = 0

instance (y : Int) : Decidable (isLeapYear y) := by
  unfold isLeapYear; infer_instance

/-- Number of days of the 0-indexed month `m` of year `y` in the
proleptic Gregorian calendar of the ECMAScript `Date` object (months
outside 0..11 never reach this function un-normalized; the catch-all
arm is arbitrary). -/
def monthLength (y : Int) (m : Nat) : Nat :=
  match m with
  | 0 => 31
  | 1 => if isLeapYear y then 29 else 28
  | 2 => 31
  | 3 => 30
  | 4 => 31
  | 5 => 30
  | 6 => 31
  | 7 => 31
  | 8 => 30
  | 9 => 31
  | 10 => 30
  | _ => 31

/-- Days in the 0-indexed month as the specification's words state it:
February has 29 days exactly when the year is divisible by 4 and not by
100 unless by 400; thirty days hath September, April, June and November;
all the rest have thirty-one. -/
def gregorianDaysInMonth (y : Int) (m : Nat) : Nat :=
  if m = 1 then
    if (y % 4 = 0 ∧ y % 100 ≠ 0) ∨ y % 400 = 0 then 29 else 28
  else if m = 3 ∨ m = 5 ∨ m = 8 ∨ m = 10 then 30
  else 31

/-- ECMAScript two-digit-year rule of the `Date(year, month, day)`
constructor: an integer year in 0..99 is interpreted as 1900 + year. -/
def jsYearAdjust (y : Int) : Int :=
  if 0 ≤ y ∧ y ≤ 99 then 1900 + y else y

/-- Embeds `new Date(year, month, 0).getDate()` for `month` in 1..12:
the two-digit year is adjusted, month 12 carries into the next year, and
day 0 normalizes to the last day of the preceding month, whose length is
returned by `getDate`. -/
def jsDateDayZeroGetDate (year : Int) (month : Nat) : Nat :=
  let yr := jsYearAdjust year
  let ym : Int := yr + Int.ofNat (month / 12)
  let mn : Nat := month % 12
  if mn = 0 then monthLength (ym - 1) 11 else monthLength ym (mn - 1)

/-- `daysInMonth` from calendar-logic.js:
`return new Date(year, month + 1, 0).getDate();` with `month` 0-indexed. -/
def daysInMonth (year : Int) (month : Nat) : Nat :=
  jsDateDayZeroGetDate year (month + 1)

/-- Calendar date at whole-day granularity, as carried by the source's
`Date` state and its `YYYY-MM-DD` strings: `month` is 1-based. -/
structure CalDate where
  year : Int
  month : Nat
  day : Nat
deriving DecidableEq, Repr

/-- A date is well formed when its month is 1..12 and its day exists in
that month. -/
def CalDate.valid (c : CalDate) : Prop :=
  1 ≤ c.month ∧ c.month ≤ 12 ∧ 1 ≤ c.day ∧ c.day ≤ monthLength c.year (c.month - 1)

instance (c : CalDate) : Decidable c.valid := by
  unfold CalDate.valid; infer_instance

/-- ECMAScript day-of-month normalization for a date assembled from a
0-indexed month `m0` in 0..11 and the day of an existing calendar date
(so the day exceeds the target month's length by at most 3 and rolls
into the following month); the December arm is unreachable for such
days since December has 31 of them. -/
def jsNormalize (y : Int) (m0 : Nat) (d : Nat) : CalDate :=
  if d ≤ monthLength y m0 then ⟨y, m0 + 1, d⟩
  else if m0 = 11 then ⟨y + 1, 1, d - 31⟩
  else ⟨y, m0 + 2, d - monthLength y m0⟩

/-- `changeCalendarMonth(offset, currentDate)` from calendar-logic.js:
`newDate.setMonth(newDate.getMonth() + offset)`. ECMAScript `setMonth`
adds the offset to the 0-indexed month, carries the year by floored
division, keeps the day-of-month and normalizes overflow forward. -/
def changeCalendarMonth (offset : Int) (c : CalDate) : CalDate :=
  jsNormalize ((c.year * 12 + ((c.month : Int) - 1) + offset) / 12)
    ((c.year * 12 + ((c.month : Int) - 1) + offset) % 12).toNat c.day

/-- `changeCalendarYear(offset, currentDate)` from calendar-logic.js:
`newDate.setFullYear(newDate.getFullYear() + offset)`. ECMAScript
`setFullYear` keeps month and day-of-month and normalizes overflow
forward (Feb 29 in a non-leap target year becomes Mar 1). -/
def changeCalendarYear (offset : Int) (c : CalDate) : CalDate :=
  jsNormalize (c.year + offset) (c.month - 1) c.day

/-- Stored entity (event or task) document as the mark-done handlers
read it: `recurrence` is absent (`none`) when the document lacks the
field (JavaScript `undefined` or `null`); `completedOccurrencesDates`
is the per-date completion field used by app.js and is absent when the
stored value is not an array; `completedOccurrences` is the distinct
field used by the data-service mark-done functions. -/
structure Entity where
  id : String := ""
  recurrence : Option String := none
  isCompleted : Bool := false
  completedOccurrencesDates : Option (List String) := none
  completedOccurrences : Option (List String) := none
  startDate : Option CalDate := none
  endDate : Option CalDate := none
deriving DecidableEq, Repr

/-- Condition `data.recurrence && data.recurrence !== 'none'` from
app.js line 1081: JavaScript truthiness makes an absent, null or empty
recurrence take the non-recurring branch. -/
def recurrenceBranch (e : Entity) : Bool :=
  match e.recurrence with
  | none => false
  | some r => !(r == "") && !(r == "none")

/-- The document update performed by the confirmed path of
`handleMarkDoneClick` (app.js lines 1079-1094): recurring entities get
the occurrence date appended to `completedOccurrencesDates` unless it
is already present (in which case no write happens); all others get
`isCompleted: true`. -/
def applyMarkDone (e : Entity) (d : String) : Entity :=
  if recurrenceBranch e then
    if (e.completedOccurrencesDates.getD []).contains d then e
    else { e with completedOccurrencesDates := some (e.completedOccurrencesDates.getD [] ++ [d]) }
  else
    { e with isCompleted := true }

/-- Recurrence rule of an entity, after parsing the persisted string. -/
inductive Recur where
  | once
  | daily
  | weekly
  | monthly
  | yearly
deriving DecidableEq, Repr

/-- Modelled from the spec: the recurrence values the expander
understands (section 3: one of none, daily, weekly, monthly, yearly);
an unparseable or absent value yields no rule and the entity expands to
nothing (section 7). -/
def parseRecurrence : Option String → Option Recur
  | some "none" => some Recur.once
  | some "daily" => some Recur.daily
  | some "weekly" => some Recur.weekly
  | some "monthly" => some Recur.monthly
  | some "yearly" => some Recur.yearly
  | _ => none

/-- Chronological comparison of calendar dates (lexicographic on year,
month, day; agrees with day ordinals on well-formed dates). -/
def CalDate.leb (a b : CalDate) : Bool :=
  if a.year < b.year then true
  else if b.year < a.year then false
  else if a.month < b.month then true
  else if b.month < a.month then false
  else decide (a.day ≤ b.day)

/-- Days of year `y` that precede its 1-based month `m1`. -/
def daysBeforeMonth (y : Int) (m1 : Nat) : Nat :=
  (List.range (m1 - 1)).foldl (fun acc i => acc + monthLength y i) 0

/-- Rata-die style day ordinal of a calendar date, so that two dates
lie a whole number of weeks apart exactly when their ordinals differ by
a multiple of 7. -/
def toOrdinal (c : CalDate) : Int :=
  365 * (c.year - 1) + (c.year - 1).fdiv 4 - (c.year - 1).fdiv 100 + (c.year - 1).fdiv 400 +
    (daysBeforeMonth c.year c.month : Int) + (c.day : Int)

/-- Modelled from the spec: the upper bound the expander actually uses
(section 4.2 edge-case policy) — an `endDate` earlier than `startDate`
is treated as no upper bound, not silently inverted. -/
def effectiveEnd (s : CalDate) (e : Option CalDate) : Option CalDate :=
  match e with
  | none => none
  | some en => if CalDate.leb s en then some en else none

/-- A date respects the effective upper bound (no bound means always). -/
def withinEnd (eff : Option CalDate) (d : CalDate) : Bool :=
  match eff with
  | none => true
  | some en => CalDate.leb d en

/-- A year respects the effective upper bound at year granularity, as
the yearly rule requires (section 4.2). -/
def yearWithinEnd (eff : Option CalDate) (y : Int) : Bool :=
  match eff with
  | none => true
  | some en => decide (y ≤ en.year)

/-- The target month (1-based `m` of year `y`) is on or after the
month of the start date. -/
def monthOnOrAfterStart (y : Int) (m : Nat) (s : CalDate) : Bool :=
  decide (s.year < y ∨ (s.year = y ∧ s.month ≤ m))

/-- All dates of the 1-based month `m` of year `y`, in ascending order. -/
def monthDates (y : Int) (m : Nat) : List CalDate :=
  (List.range (monthLength y (m - 1))).map (fun i => ⟨y, m, i + 1⟩)

/-- Modelled from the spec: whether a date of the target month is an
occurrence of the rule `r` with start date `s` and effective end `eff`
(section 4.2): daily needs the date on or after the start and within
the bound; weekly additionally needs an exact 7-day multiple from the
start; monthly needs the day-of-month of the start clamped to the
month's last day, a target month not before the start's month, and the
bound; yearly needs the start's month and clamped day, a target year
not before the start's year, and the bound at year granularity; `none`
occurs only on the start date itself. -/
def occursPred (r : Recur) (s : CalDate) (eff : Option CalDate) (y : Int) (m : Nat)
    (d : CalDate) : Bool :=
  match r with
  | Recur.once => decide (d = s)
  | Recur.daily => CalDate.leb s d && withinEnd eff d
  | Recur.weekly => CalDate.leb s d && withinEnd eff d &&
      decide ((toOrdinal d - toOrdinal s) % 7 = 0)
  | Recur.monthly => decide (d.day = min s.day (monthLength y (m - 1))) &&
      monthOnOrAfterStart y m s && withinEnd eff d
  | Recur.yearly => decide (m = s.month) &&
      decide (d.day = min s.day (monthLength y (m - 1))) &&
      decide (s.year ≤ y) && yearWithinEnd eff y

/-- Modelled from the spec: `RecurrenceExpander.expand` (section 4.2),
standing in for the recurrence-aware `generateOccurrencesForMonth` that
app.js calls but whose definition is absent from the source snapshot.
An entity with an invalid or missing start date, or an unparseable
recurrence, expands to the empty sequence; otherwise the dates of the
target month (1-based `m`) satisfying the entity's rule are produced in
ascending order. -/
def expand (e : Entity) (y : Int) (m : Nat) : List CalDate :=
  match e.startDate, parseRecurrence e.recurrence with
  | some s, some r => (monthDates y m).filter (occursPred r s (effectiveEnd s e.endDate) y m)
  | _, _ => []

/-- Derived occurrence record: a projection of one entity onto one
concrete date of the requested month. -/
structure Occurrence where
  originalId : String
  date : CalDate
deriving DecidableEq, Repr

/-- Modelled from the spec: `OccurrenceProjector.project` (section 4.3)
runs the expander over every entity and flattens the results in input
order. -/
def project (es : List Entity) (y : Int) (m : Nat) : List Occurrence :=
  es.flatMap (fun e => (expand e y m).map (fun d => ⟨e.id, d⟩))

/-- Kind of toast notification shown to the user. -/
inductive ToastKind where
  | success
  | error
  | info
deriving DecidableEq, Repr

/-- Confirmed path of `handleMarkDoneClick` (app.js lines 1072-1098):
the document is looked up by id; if it exists the completion update is
applied and a success toast is shown; if it does not exist an error
toast reports that the original entity was not found. The first
component is the updated document, when any. -/
def handleMarkDone (store : List Entity) (id d : String) :
    Option Entity × Option ToastKind :=
  match store.find? (fun e => e.id == id) with
  | some e => (some (applyMarkDone e d), some ToastKind.success)
  | none => (none, some ToastKind.error)

/-- `markEventOccurrenceDone` from data-service.js (lines 607-631): the
document is looked up by id; if it exists, today's date is appended to
its `completedOccurrences` unless already present (info toast);
if the document does not exist, the function falls through its
`if (eventDoc.exists())` with no else branch — no write and no toast.
The first component is the new `completedOccurrences` value written,
when any. -/
def markEventOccurrenceDone (store : List Entity) (id today : String) :
    Option (List String) × Option ToastKind :=
  match store.find? (fun e => e.id == id) with
  | some e =>
    if (e.completedOccurrences.getD []).contains today then (none, some ToastKind.info)
    else (some (e.completedOccurrences.getD [] ++ [today]), some ToastKind.success)
  | none => (none, none)

/-- `markTaskOccurrenceDone` from data-service.js (lines 665-689):
identical to `markEventOccurrenceDone` over the tasks collection,
including the silent fall-through when the document does not exist. -/
def markTaskOccurrenceDone (store : List Entity) (id today : String) :
    Option (List String) × Option ToastKind :=
  match store.find? (fun e => e.id == id) with
  | some e =>
    if (e.completedOccurrences.getD []).contains today then (none, some ToastKind.info)
    else (some (e.completedOccurrences.getD [] ++ [today]), some ToastKind.success)
  | none => (none, none)

/-- Occurrence record as the app.js view code sorts it: `startDate` is
a `YYYY-MM-DD` string, `startTime` an optional `HH:MM` string. -/
structure OccRecord where
  id : String := ""
  startDate : String := ""
  startTime : Option String := none
deriving DecidableEq, Repr

/-- ASCII digit, for the date grammar. -/
def isDigitCh (c : Char) : Prop := '0' ≤ c ∧ c ≤ '9'

instance (c : Char) : Decidable (isDigitCh c) := by
  unfold isDigitCh; infer_instance

/-- Numeric value of an ASCII digit character. -/
def digitVal (c : Char) : Nat := c.toNat - 48

/-- Modelled from ECMAScript `Date.parse`, restricted to the string
shapes these call sites produce: an exact `YYYY-MM-DD` date (the Date
Time String Format without time) parses to its day ordinal; a date with
a time glued on without the `T` separator — the result of
`a.startDate + (a.startTime || '')` in app.js line 1007 — or any other
shape does not parse (the comparator then subtracts NaN). -/
def jsParseDate (s : String) : Option Int :=
  if s.data.length = 10 ∧ s.data.getD 4 ' ' = '-' ∧ s.data.getD 7 ' ' = '-' ∧
      isDigitCh (s.data.getD 0 ' ') ∧ isDigitCh (s.data.getD 1 ' ') ∧
      isDigitCh (s.data.getD 2 ' ') ∧ isDigitCh (s.data.getD 3 ' ') ∧
      isDigitCh (s.data.getD 5 ' ') ∧ isDigitCh (s.data.getD 6 ' ') ∧
      isDigitCh (s.data.getD 8 ' ') ∧ isDigitCh (s.data.getD 9 ' ') then
    let y : Int := (1000 * digitVal (s.data.getD 0 ' ') + 100 * digitVal (s.data.getD 1 ' ') +
      10 * digitVal (s.data.getD 2 ' ') + digitVal (s.data.getD 3 ' ') : Nat)
    let mo : Nat := 10 * digitVal (s.data.getD 5 ' ') + digitVal (s.data.getD 6 ' ')
    let dy : Nat := 10 * digitVal (s.data.getD 8 ' ') + digitVal (s.data.getD 9 ' ')
    if 1 ≤ mo ∧ mo ≤ 12 ∧ 1 ≤ dy ∧ dy ≤ monthLength y (mo - 1) then some (toOrdinal ⟨y, mo, dy⟩)
    else none
  else none

/-- Sort key computed by the list-view comparator (app.js line 1007):
`new Date(a.startDate + (a.startTime || ''))`. -/
def listViewKey (o : OccRecord) : Option Int :=
  jsParseDate (o.startDate ++ o.startTime.getD "")

/-- The list-view comparator: the difference of the two parsed keys;
per ECMAScript SortCompare a NaN comparator result — which arises
whenever either key fails to parse — counts as 0 (a tie). -/
def listViewCompare (a b : OccRecord) : Int :=
  match listViewKey a, listViewKey b with
  | some x, some y => x - y
  | _, _ => 0

/-- `allEventsForMonth.sort(...)` of app.js lines 1007-1012:
`Array.prototype.sort` is a stable comparison sort (ES2019), modelled
as stable merge sort on comparator-result at most 0. -/
def listViewSort (l : List OccRecord) : List OccRecord :=
  l.mergeSort (fun a b => decide (listViewCompare a b ≤ 0))

/-- Sort key of the day-detail sort (app.js lines 759-765):
`(a.startTime || '00:00')`, compared as a string. -/
def dayDetailKey (o : OccRecord) : String := o.startTime.getD "00:00"

/-- The day-detail sort of app.js lines 759-765, a stable sort by
`(startTime || '00:00').localeCompare(...)` (the keys are same-shape
`HH:MM` digit strings, on which locale comparison agrees with ordinary
string order). -/
def dayDetailSort (l : List OccRecord) : List OccRecord :=
  l.mergeSort (fun a b => decide (dayDetailKey a ≤ dayDetailKey b))

/-- The ordering the claim states for the delivered sequence: ascending
lexicographically by the pair of the date and the start time with
`00:00` substituted when missing. -/
def specSortLe (a b : OccRecord) : Prop :=
  a.startDate.data < b.startDate.data ∨
    (a.startDate = b.startDate ∧ (dayDetailKey a).data ≤ (dayDetailKey b).data)

instance (a b : OccRecord) : Decidable (specSortLe a b) := by
  unfold specSortLe; infer_instance

/-- An occurrence on March 2 with a start time: its list-view key,
`2025-03-0209:00`, does not parse. -/
def occLater : OccRecord := { id := "a", startDate := "2025-03-02", startTime := some "09:00" }

/-- An occurrence on March 1 without a start time: its list-view key,
`2025-03-01`, parses. -/
def occEarlier : OccRecord := { id := "b", startDate := "2025-03-01" }

theorem monthLength_bounds (y : Int) (m : Nat) :
    28 ≤ monthLength y m ∧ monthLength y m ≤ 31 := by
  unfold monthLength
  split
  all_goals first
    | omega
    | (split <;> omega)

theorem daysInMonth_eq_monthLength_adjust (year : Int) (month : Nat)
    (h : month ≤ 11) :
    daysInMonth year month = monthLength (jsYearAdjust year) month := by
  unfold daysInMonth jsDateDayZeroGetDate
  interval_cases month <;> simp

theorem jsYearAdjust_leap_iff (y : Int) (hy : y ≠ 0) :
    isLeapYear (jsYearAdjust y) ↔ isLeapYear y := by
  unfold isLeapYear jsYearAdjust
  split <;> omega

/-- C7 counterexample: the claim asserts `daysInMonth` matches the
Gregorian calendar for every year, but the `Date(year, month, day)`
constructor interprets year 0 as 1900, a common year, while Gregorian
year 0 is a leap year (divisible by 400): `daysInMonth 0 1` returns 28
where the claim requires 29. -/
theorem C7_counterexample :
    daysInMonth 0 1 = 28 ∧ gregorianDaysInMonth 0 1 = 29 := by
  constructor <;> decide

/-- C7 amended: for every 0-indexed month and every year other than 0,
`daysInMonth` equals the Gregorian number of days in that month (years
1..99 are interpreted by the `Date` constructor as 1901..1999, which
have the same month lengths); in particular `daysInMonth 2024 1 = 29`
and `daysInMonth 2023 1 = 28`. -/
theorem C7_daysInMonth_gregorian (year : Int) (month : Nat)
    (hm : month ≤ 11) (hy : year ≠ 0) :
    daysInMonth year month = gregorianDaysInMonth year month ∧
    daysInMonth 2024 1 = 29 ∧ daysInMonth 2023 1 = 28 := by
  refine ⟨?_, by decide, by decide⟩
  rw [daysInMonth_eq_monthLength_adjust year month hm]
  have hleap := jsYearAdjust_leap_iff year hy
  unfold monthLength gregorianDaysInMonth
  interval_cases month <;> simp_all
  by_cases h : isLeapYear year
  · rw [if_pos h, if_pos (by unfold isLeapYear at h; omega)]
  · rw [if_neg h, if_neg (by unfold isLeapYear at h; omega)]

/-- Witness for C7: instantiated at year 2024, February. -/
theorem C7_daysInMonth_gregorian_witness :
    daysInMonth 2024 1 = gregorianDaysInMonth 2024 1 :=
  (C7_daysInMonth_gregorian 2024 1 (by decide) (by decide)).1

theorem CalDate.valid_mk (y : Int) (m d : Nat) :
    (CalDate.mk y m d).valid ↔ 1 ≤ m ∧ m ≤ 12 ∧ 1 ≤ d ∧ d ≤ monthLength y (m - 1) :=
  Iff.rfl

theorem jsNormalize_valid (y : Int) (m0 d : Nat) (hm0 : m0 ≤ 11)
    (hd1 : 1 ≤ d) (hd31 : d ≤ 31) : (jsNormalize y m0 d).valid := by
  have h1 := monthLength_bounds y m0
  have h2 := monthLength_bounds y (m0 + 1)
  unfold jsNormalize
  split
  · rw [CalDate.valid_mk, show m0 + 1 - 1 = m0 from rfl]
    omega
  · split
    · rename_i hle h11
      subst h11
      have h31 : monthLength y 11 = 31 := rfl
      exfalso
      omega
    · rw [CalDate.valid_mk, show m0 + 2 - 1 = m0 + 1 from rfl]
      omega

/-- C4 counterexample: the claim asserts that stepping clamps the
day-of-month (Jan 31 + 1 month gives Feb 28), but `setMonth` rolls the
overflow forward: Jan 31 2025 + 1 month is Mar 3 2025; likewise
Feb 29 2024 + 1 year is Mar 1 2025, not Feb 28 2025. -/
theorem C4_counterexample :
    changeCalendarMonth 1 ⟨2025, 1, 31⟩ = ⟨2025, 3, 3⟩ ∧
    changeCalendarMonth 1 ⟨2025, 1, 31⟩ ≠ ⟨2025, 2, 28⟩ ∧
    changeCalendarYear 1 ⟨2024, 2, 29⟩ = ⟨2025, 3, 1⟩ ∧
    changeCalendarYear 1 ⟨2024, 2, 29⟩ ≠ ⟨2025, 2, 28⟩ := by
  refine ⟨by decide, by decide, by decide, by decide⟩

/-- C4 amended: stepping a valid date by `delta` months adds `delta` to
the month, carrying year overflow, and keeps the day-of-month; when
that day does not exist in the resulting month the date rolls forward
into the following month by the excess days (it does not clamp).
Stepping by `delta` years behaves likewise. The result is always again
a valid date. -/
theorem C4_step_rollover (c : CalDate) (delta : Int) (hv : c.valid) :
    (c.day ≤ monthLength ((c.year * 12 + ((c.month : Int) - 1) + delta) / 12)
        ((c.year * 12 + ((c.month : Int) - 1) + delta) % 12).toNat →
      changeCalendarMonth delta c =
        ⟨(c.year * 12 + ((c.month : Int) - 1) + delta) / 12,
         ((c.year * 12 + ((c.month : Int) - 1) + delta) % 12).toNat + 1, c.day⟩) ∧
    (monthLength ((c.year * 12 + ((c.month : Int) - 1) + delta) / 12)
        ((c.year * 12 + ((c.month : Int) - 1) + delta) % 12).toNat < c.day →
      changeCalendarMonth delta c =
        ⟨(c.year * 12 + ((c.month : Int) - 1) + delta) / 12,
         ((c.year * 12 + ((c.month : Int) - 1) + delta) % 12).toNat + 2,
         c.day - monthLength ((c.year * 12 + ((c.month : Int) - 1) + delta) / 12)
           ((c.year * 12 + ((c.month : Int) - 1) + delta) % 12).toNat⟩) ∧
    (c.day ≤ monthLength (c.year + delta) (c.month - 1) →
      changeCalendarYear delta c = ⟨c.year + delta, c.month, c.day⟩) ∧
    (monthLength (c.year + delta) (c.month - 1) < c.day →
      changeCalendarYear delta c =
        ⟨c.year + delta, c.month + 1, c.day - monthLength (c.year + delta) (c.month - 1)⟩) ∧
    (changeCalendarMonth delta c).valid ∧ (changeCalendarYear delta c).valid := by
  obtain ⟨hm1, hm2, hd1, hd2⟩ := hv
  have hb := monthLength_bounds c.year (c.month - 1)
  have htn : ((c.year * 12 + ((c.month : Int) - 1) + delta) % 12).toNat ≤ 11 := by omega
  refine ⟨?_, ?_, ?_, ?_, ?_, ?_⟩
  · intro h
    unfold changeCalendarMonth jsNormalize
    rw [if_pos h]
  · intro h
    unfold changeCalendarMonth jsNormalize
    have h11 : monthLength ((c.year * 12 + ((c.month : Int) - 1) + delta) / 12) 11 = 31 := rfl
    rw [if_neg (by omega), if_neg ?_]
    intro hc
    rw [hc, h11] at h
    omega
  · intro h
    unfold changeCalendarYear jsNormalize
    rw [if_pos h]
    congr 1
    omega
  · intro h
    unfold changeCalendarYear jsNormalize
    have h11 : monthLength (c.year + delta) 11 = 31 := rfl
    rw [if_neg (by omega), if_neg ?_]
    · congr 1
      omega
    · intro hc
      rw [hc, h11] at h
      omega
  · exact jsNormalize_valid _ _ _ htn hd1 (by omega)
  · exact jsNormalize_valid _ _ _ (by omega) hd1 (by omega)

/-- Witness for C4: Mar 31 2025 stepped by +1 month rolls into May 1
2025 (April has 30 days), and Jan 15 stepped by +1 year stays Jan 15. -/
theorem C4_step_rollover_witness :
    changeCalendarMonth 1 ⟨2025, 3, 31⟩ = ⟨2025, 5, 1⟩ ∧
    changeCalendarYear 1 ⟨2025, 1, 15⟩ = ⟨2026, 1, 15⟩ := by
  have h := C4_step_rollover ⟨2025, 3, 31⟩ 1 (by decide)
  have h2 := C4_step_rollover ⟨2025, 1, 15⟩ 1 (by decide)
  exact ⟨h.2.1 (by decide), h2.2.2.1 (by decide)⟩

/-- C9 counterexample: the claim allows the round trip to differ from
the identity only where the forward step clamped the day-of-month; the
code never clamps — Jan 31 2025 + 1 month is Mar 3 2025 (a rollover,
not the clamp Feb 28) and stepping back -1 month gives Feb 3 2025, not
Jan 31 2025. -/
theorem C9_counterexample :
    changeCalendarMonth 1 ⟨2025, 1, 31⟩ = ⟨2025, 3, 3⟩ ∧
    changeCalendarMonth 1 ⟨2025, 1, 31⟩ ≠ ⟨2025, 2, 28⟩ ∧
    changeCalendarMonth (-1) (changeCalendarMonth 1 ⟨2025, 1, 31⟩) = ⟨2025, 2, 3⟩ ∧
    changeCalendarMonth (-1) (changeCalendarMonth 1 ⟨2025, 1, 31⟩) ≠ ⟨2025, 1, 31⟩ := by
  refine ⟨by decide, by decide, by decide, by decide⟩

/-- C9 amended: stepping a valid date by `delta` months and then by
`-delta` months returns the original date whenever the original
day-of-month exists in the intermediate target month (no rollover
occurred on the forward step); likewise for years. When the forward
step overflows, it rolls into the following month rather than
clamping, and the round trip lands on a different date. -/
theorem C9_step_roundtrip (c : CalDate) (delta : Int) (hv : c.valid)
    (hm : c.day ≤ monthLength ((c.year * 12 + ((c.month : Int) - 1) + delta) / 12)
      ((c.year * 12 + ((c.month : Int) - 1) + delta) % 12).toNat)
    (hy : c.day ≤ monthLength (c.year + delta) (c.month - 1)) :
    changeCalendarMonth (-delta) (changeCalendarMonth delta c) = c ∧
    changeCalendarYear (-delta) (changeCalendarYear delta c) = c := by
  obtain ⟨y, m, d⟩ := c
  rw [CalDate.valid_mk] at hv
  obtain ⟨hm1, hm2, hd1, hd2⟩ := hv
  dsimp only at hm hy
  constructor
  · rw [show changeCalendarMonth delta ⟨y, m, d⟩ =
        ⟨(y * 12 + ((m : Int) - 1) + delta) / 12,
         ((y * 12 + ((m : Int) - 1) + delta) % 12).toNat + 1, d⟩ from by
      unfold changeCalendarMonth jsNormalize
      exact if_pos hm]
    unfold changeCalendarMonth jsNormalize
    dsimp only
    rw [show (y * 12 + ((m : Int) - 1) + delta) / 12 * 12 +
        (((((y * 12 + ((m : Int) - 1) + delta) % 12).toNat + 1 : Nat) : Int) - 1) + -delta =
        y * 12 + ((m : Int) - 1) from by omega]
    rw [show (y * 12 + ((m : Int) - 1)) / 12 = y from by omega]
    rw [show ((y * 12 + ((m : Int) - 1)) % 12).toNat = m - 1 from by omega]
    rw [if_pos hd2]
    congr 1
    omega
  · rw [show changeCalendarYear delta ⟨y, m, d⟩ = ⟨y + delta, m - 1 + 1, d⟩ from by
      unfold changeCalendarYear jsNormalize
      exact if_pos hy]
    unfold changeCalendarYear jsNormalize
    dsimp only
    rw [show m - 1 + 1 - 1 = m - 1 from rfl]
    rw [show y + delta + -delta = y from by omega]
    rw [if_pos hd2]
    congr 1
    omega

/-- Witness for C9: Jan 15 2025 round-trips through +1 month and +1
year back to itself. -/
theorem C9_step_roundtrip_witness :
    changeCalendarMonth (-1) (changeCalendarMonth 1 ⟨2025, 1, 15⟩) = ⟨2025, 1, 15⟩ ∧
    changeCalendarYear (-1) (changeCalendarYear 1 ⟨2025, 1, 15⟩) = ⟨2025, 1, 15⟩ :=
  C9_step_roundtrip ⟨2025, 1, 15⟩ 1 (by decide) (by decide) (by decide)

theorem applyMarkDone_idem (e : Entity) (d : String) :
    applyMarkDone (applyMarkDone e d) d = applyMarkDone e d := by
  obtain ⟨i, rec, ic, dates, occ, sd, ed⟩ := e
  by_cases hbr : recurrenceBranch ⟨i, rec, ic, dates, occ, sd, ed⟩ = true
  · by_cases hc : ((dates.getD []).contains d) = true
    · have h1 : applyMarkDone ⟨i, rec, ic, dates, occ, sd, ed⟩ d = ⟨i, rec, ic, dates, occ, sd, ed⟩ := by
        unfold applyMarkDone
        rw [if_pos hbr, if_pos hc]
      rw [h1, h1]
    · have h1 : applyMarkDone ⟨i, rec, ic, dates, occ, sd, ed⟩ d = ⟨i, rec, ic, some (dates.getD [] ++ [d]), occ, sd, ed⟩ := by
        unfold applyMarkDone
        rw [if_pos hbr, if_neg hc]
      rw [h1]
      have hbr2 : recurrenceBranch ⟨i, rec, ic, some (dates.getD [] ++ [d]), occ, sd, ed⟩ = true := hbr
      have hc2 : (((some (dates.getD [] ++ [d]) : Option (List String)).getD []).contains d) = true := by
        simp
      unfold applyMarkDone
      rw [if_pos hbr2, if_pos hc2]
  · have hbrf : recurrenceBranch ⟨i, rec, ic, dates, occ, sd, ed⟩ = false := by
      rw [Bool.not_eq_true] at hbr
      exact hbr
    have h1 : applyMarkDone ⟨i, rec, ic, dates, occ, sd, ed⟩ d = ⟨i, rec, true, dates, occ, sd, ed⟩ := by
      unfold applyMarkDone
      rw [hbrf]
      simp
    rw [h1]
    have hbrf2 : recurrenceBranch ⟨i, rec, true, dates, occ, sd, ed⟩ = false := hbrf
    unfold applyMarkDone
    rw [hbrf2]
    simp

/-- C3: marking an occurrence done with recurrence `none` sets
`isCompleted`; with any other recurrence value of the data model it
updates `completedOccurrencesDates` to the union with the occurrence
date; and the operation is idempotent for every entity and date. -/
theorem C3_markDone (e : Entity) (d r : String)
    (hr : e.recurrence = some r)
    (hmodel : r ∈ (["none", "daily", "weekly", "monthly", "yearly"] : List String)) :
    (r = "none" → applyMarkDone e d = { e with isCompleted := true }) ∧
    (r ≠ "none" →
      (applyMarkDone e d).completedOccurrencesDates =
        some (if (e.completedOccurrencesDates.getD []).contains d then
          e.completedOccurrencesDates.getD []
        else e.completedOccurrencesDates.getD [] ++ [d]) ∧
      (∀ x, x ∈ (applyMarkDone e d).completedOccurrencesDates.getD [] ↔
        x ∈ e.completedOccurrencesDates.getD [] ∨ x = d)) ∧
    (∀ e₂ : Entity, ∀ d₂ : String, applyMarkDone (applyMarkDone e₂ d₂) d₂ = applyMarkDone e₂ d₂) := by
  refine ⟨?_, ?_, fun e₂ d₂ => applyMarkDone_idem e₂ d₂⟩
  · intro hnone
    subst hnone
    unfold applyMarkDone recurrenceBranch
    rw [hr]
    simp
  · intro hne
    have hbr : recurrenceBranch e = true := by
      unfold recurrenceBranch
      rw [hr]
      fin_cases hmodel <;> simp_all
    constructor
    · unfold applyMarkDone
      rw [if_pos hbr]
      split
      · rename_i hc
        cases hcc : e.completedOccurrencesDates with
        | none => rw [hcc] at hc; simp at hc
        | some l => simp
      · rfl
    · intro x
      unfold applyMarkDone
      rw [if_pos hbr]
      split
      · rename_i hc
        simp only [List.contains_eq_any_beq, List.any_eq_true, beq_iff_eq] at hc
        obtain ⟨y, hy, rfl⟩ := hc
        constructor
        · intro hx
          exact Or.inl hx
        · rintro (hx | rfl)
          · exact hx
          · exact hy
      · simp

/-- Witness for C3: a weekly entity with one completed date, marked
done again for that date, is unchanged. -/
theorem C3_markDone_witness :
    applyMarkDone (applyMarkDone { id := "e1", recurrence := some "weekly", completedOccurrencesDates := some ["2025-02-05"] } "2025-02-05") "2025-02-05" =
    applyMarkDone { id := "e1", recurrence := some "weekly", completedOccurrencesDates := some ["2025-02-05"] } "2025-02-05" :=
  (C3_markDone { id := "e1", recurrence := some "weekly", completedOccurrencesDates := some ["2025-02-05"] } "2025-02-05" "weekly"
    rfl (by decide)).2.2 _ _

/-- C10: an entity whose `recurrence` field is absent or empty takes
the non-recurring branch of `handleMarkDoneClick` — `isCompleted`
becomes true and the per-date completion set is untouched — and the
per-date branch can alter `completedOccurrencesDates` only when
`recurrence` is present and differs from both `none` and the empty
string. -/
theorem C10_markDone_absent_recurrence (e : Entity) (d : String)
    (habs : e.recurrence = none ∨ e.recurrence = some "") :
    applyMarkDone e d = { e with isCompleted := true } ∧
    (applyMarkDone e d).completedOccurrencesDates = e.completedOccurrencesDates ∧
    (∀ e₂ : Entity, ∀ d₂ : String,
      (applyMarkDone e₂ d₂).completedOccurrencesDates ≠ e₂.completedOccurrencesDates →
      ∃ r, e₂.recurrence = some r ∧ r ≠ "none" ∧ r ≠ "") := by
  have hbr : recurrenceBranch e = false := by
    unfold recurrenceBranch
    rcases habs with h | h <;> simp [h]
  have hmain : applyMarkDone e d = { e with isCompleted := true } := by
    unfold applyMarkDone
    rw [hbr]
    simp
  refine ⟨hmain, by rw [hmain], ?_⟩
  intro e₂ d₂ hne
  by_cases hbr₂ : recurrenceBranch e₂ = true
  · unfold recurrenceBranch at hbr₂
    cases hr : e₂.recurrence with
    | none => rw [hr] at hbr₂; simp at hbr₂
    | some r =>
      rw [hr] at hbr₂
      simp only [Bool.and_eq_true, Bool.not_eq_true', beq_eq_false_iff_ne, ne_eq] at hbr₂
      exact ⟨r, rfl, hbr₂.2, hbr₂.1⟩
  · exfalso
    apply hne
    unfold applyMarkDone
    rw [Bool.not_eq_true] at hbr₂
    rw [hbr₂]
    simp

/-- Witness for C10: an entity with no recurrence field gets
`isCompleted := true`. -/
theorem C10_markDone_absent_recurrence_witness :
    applyMarkDone ({ id := "e2" } : Entity) "2025-02-05" =
      { ({ id := "e2" } : Entity) with isCompleted := true } :=
  (C10_markDone_absent_recurrence { id := "e2" } "2025-02-05" (Or.inl rfl)).1

theorem mem_monthDates (y : Int) (m : Nat) (d : CalDate) :
    d ∈ monthDates y m ↔
      d.year = y ∧ d.month = m ∧ 1 ≤ d.day ∧ d.day ≤ monthLength y (m - 1) := by
  unfold monthDates
  simp only [List.mem_map, List.mem_range]
  constructor
  · rintro ⟨i, hi, rfl⟩
    exact ⟨rfl, rfl, by show 1 ≤ i + 1; omega, by show i + 1 ≤ monthLength y (m - 1); omega⟩
  · rintro ⟨hy, hm, h1, h2⟩
    refine ⟨d.day - 1, by omega, ?_⟩
    obtain ⟨dy, dm, dd⟩ := d
    simp only [CalDate.mk.injEq] at hy hm ⊢
    subst hy
    subst hm
    refine ⟨rfl, rfl, ?_⟩
    simp only at h1
    omega

/-- C1: for a weekly entity, expansion over a target month contains
exactly the dates of that month that are on or after the start date,
within the effective end bound, and an exact multiple of 7 days from
the start date; for start date 2025-01-01 and target February 2025
these are the 5th, 12th, 19th and 26th. -/
theorem C1_weekly_expansion (e : Entity) (y : Int) (m : Nat) (s : CalDate)
    (hs : e.startDate = some s) (hr : e.recurrence = some "weekly") :
    (∀ d, d ∈ expand e y m ↔
      (d.year = y ∧ d.month = m ∧ 1 ≤ d.day ∧ d.day ≤ monthLength y (m - 1) ∧
       CalDate.leb s d = true ∧ withinEnd (effectiveEnd s e.endDate) d = true ∧
       (toOrdinal d - toOrdinal s) % 7 = 0)) ∧
    expand { id := "w", recurrence := some "weekly", startDate := some ⟨2025, 1, 1⟩ } 2025 2 =
      [⟨2025, 2, 5⟩, ⟨2025, 2, 12⟩, ⟨2025, 2, 19⟩, ⟨2025, 2, 26⟩] := by
  constructor
  · intro d
    unfold expand
    rw [hs, hr]
    simp only [parseRecurrence]
    rw [List.mem_filter, mem_monthDates]
    unfold occursPred
    simp only [Bool.and_eq_true, decide_eq_true_eq]
    tauto
  · decide

/-- Witness for C1: the concrete weekly entity starting 2025-01-01
expanded over February 2025. -/
theorem C1_weekly_expansion_witness :
    expand { id := "w", recurrence := some "weekly", startDate := some ⟨2025, 1, 1⟩ } 2025 2 =
      [⟨2025, 2, 5⟩, ⟨2025, 2, 12⟩, ⟨2025, 2, 19⟩, ⟨2025, 2, 26⟩] :=
  (C1_weekly_expansion { id := "w", recurrence := some "weekly", startDate := some ⟨2025, 1, 1⟩ }
    2025 2 ⟨2025, 1, 1⟩ rfl rfl).2

theorem range_filter_eq_singleton (q : Nat → Bool) (k : Nat)
    (hq : ∀ i, q i = true → i = k) :
    ∀ n, (List.range n).filter q = if k < n ∧ q k = true then [k] else [] := by
  intro n
  induction n with
  | zero => simp
  | succ n ih =>
    rw [List.range_succ, List.filter_append, ih]
    by_cases hqn : q n = true
    · have hk : k = n := (hq n hqn).symm
      subst hk
      rw [if_neg (fun hcc => absurd hcc.1 (by omega))]
      rw [if_pos ⟨by omega, hqn⟩]
      simp [hqn]
    · rw [Bool.not_eq_true] at hqn
      have hfn : List.filter q [n] = [] := by simp [hqn]
      rw [hfn, List.append_nil]
      by_cases hqk : q k = true
      · have hkn : k ≠ n := by
          intro h
          rw [h, hqn] at hqk
          exact Bool.noConfusion hqk
        have hiff : (k < n ∧ q k = true) ↔ (k < n + 1 ∧ q k = true) := by
          constructor
          · rintro ⟨h1, h2⟩
            exact ⟨by omega, h2⟩
          · rintro ⟨h1, h2⟩
            exact ⟨by omega, h2⟩
        rw [if_congr hiff rfl rfl]
      · rw [if_neg (fun hcc => hqk hcc.2), if_neg (fun hcc => hqk hcc.2)]

/-- C2: for a monthly entity, expansion over a target month is the
single date whose day-of-month is the start's day clamped to the last
day of the target month, provided the target month is not before the
start's month and the clamped date respects the effective end bound,
and is empty otherwise; for start date 2025-01-31 and target February
2025 it is exactly 2025-02-28. -/
theorem C2_monthly_expansion (e : Entity) (y : Int) (m : Nat) (s : CalDate)
    (hs : e.startDate = some s) (hr : e.recurrence = some "monthly") (hd : 1 ≤ s.day) :
    expand e y m =
      (if monthOnOrAfterStart y m s = true ∧
          withinEnd (effectiveEnd s e.endDate) ⟨y, m, min s.day (monthLength y (m - 1))⟩ = true
        then [⟨y, m, min s.day (monthLength y (m - 1))⟩] else []) ∧
    expand { id := "mo", recurrence := some "monthly", startDate := some ⟨2025, 1, 31⟩ } 2025 2 =
      [⟨2025, 2, 28⟩] := by
  constructor
  · have hlen := monthLength_bounds y (m - 1)
    have hK1 : 1 ≤ min s.day (monthLength y (m - 1)) := by omega
    unfold expand
    rw [hs, hr]
    simp only [parseRecurrence]
    unfold monthDates
    rw [List.filter_map]
    rw [range_filter_eq_singleton _ (min s.day (monthLength y (m - 1)) - 1) ?hq]
    case hq =>
      intro i hi
      simp only [Function.comp_apply] at hi
      unfold occursPred at hi
      simp only [Bool.and_eq_true, decide_eq_true_eq] at hi
      have hday : i + 1 = min s.day (monthLength y (m - 1)) := hi.1.1
      omega
    have hqiff : (occursPred Recur.monthly s (effectiveEnd s e.endDate) y m ∘
        fun i => (⟨y, m, i + 1⟩ : CalDate)) (min s.day (monthLength y (m - 1)) - 1) = true ↔
        (monthOnOrAfterStart y m s = true ∧
         withinEnd (effectiveEnd s e.endDate) ⟨y, m, min s.day (monthLength y (m - 1))⟩ = true) := by
      simp only [Function.comp_apply]
      rw [show min s.day (monthLength y (m - 1)) - 1 + 1 = min s.day (monthLength y (m - 1)) from by
        omega]
      unfold occursPred
      simp
    by_cases hcond : monthOnOrAfterStart y m s = true ∧
        withinEnd (effectiveEnd s e.endDate) ⟨y, m, min s.day (monthLength y (m - 1))⟩ = true
    · rw [if_pos ⟨by omega, hqiff.mpr hcond⟩, if_pos hcond]
      simp only [List.map_cons, List.map_nil]
      rw [show min s.day (monthLength y (m - 1)) - 1 + 1 = min s.day (monthLength y (m - 1)) from by
        omega]
    · rw [if_neg (fun hcc => hcond (hqiff.mp hcc.2)), if_neg hcond]
      rfl
  · decide

/-- Witness for C2: the concrete monthly entity starting 2025-01-31
expanded over February 2025 (28 days) clamps to the 28th. -/
theorem C2_monthly_expansion_witness :
    expand { id := "mo", recurrence := some "monthly", startDate := some ⟨2025, 1, 31⟩ } 2025 2 =
      [⟨2025, 2, 28⟩] :=
  (C2_monthly_expansion { id := "mo", recurrence := some "monthly", startDate := some ⟨2025, 1, 31⟩ }
    2025 2 ⟨2025, 1, 31⟩ rfl rfl (by decide)).2

/-- C8: an entity with an invalid or missing start date expands to the
empty occurrence sequence (no exception is possible: the expander is a
total function), and its presence in a collection leaves the
occurrences projected for the other entities unchanged. -/
theorem C8_invalid_startDate (e : Entity) (y : Int) (m : Nat)
    (hbad : e.startDate = none) :
    expand e y m = [] ∧
    (∀ l₁ l₂ : List Entity, project (l₁ ++ e :: l₂) y m = project l₁ y m ++ project l₂ y m) := by
  have h1 : expand e y m = [] := by
    unfold expand
    rw [hbad]
  refine ⟨h1, ?_⟩
  intro l₁ l₂
  unfold project
  simp [h1]

/-- Witness for C8: a start-date-less entity inserted into a singleton
collection contributes nothing. -/
theorem C8_invalid_startDate_witness :
    expand ({ id := "bad", recurrence := some "daily" } : Entity) 2025 2 = [] ∧
    project ([{ id := "ok", recurrence := some "daily", startDate := some ⟨2025, 2, 10⟩ }] ++
        ({ id := "bad", recurrence := some "daily" } : Entity) :: []) 2025 2 =
      project [{ id := "ok", recurrence := some "daily", startDate := some ⟨2025, 2, 10⟩ }] 2025 2 ++
      project [] 2025 2 := by
  have h := C8_invalid_startDate { id := "bad", recurrence := some "daily" } 2025 2 rfl
  exact ⟨h.1, h.2 [{ id := "ok", recurrence := some "daily", startDate := some ⟨2025, 2, 10⟩ }] []⟩

/-- C5 counterexample: the claim says every mark-done request whose id
does not resolve reports a distinct not-found failure and never
silently does nothing; but the data-service mark-done paths perform no
write and emit no notification at all when the document is absent. -/
theorem C5_counterexample :
    markEventOccurrenceDone [] "e1" "2025-02-05" = (none, none) ∧
    markTaskOccurrenceDone [] "t1" "2025-02-05" = (none, none) := by
  constructor <;> rfl

/-- C5 amended: the app.js `handleMarkDoneClick` path does report
not-found as an error toast, distinct from the success of an idempotent
no-op; the data-service `markEventOccurrenceDone` and
`markTaskOccurrenceDone` paths silently do nothing on an unresolved
id — no write and no toast. -/
theorem C5_markDone_notFound (store : List Entity) (id d : String)
    (hnf : store.find? (fun e => e.id == id) = none) :
    handleMarkDone store id d = (none, some ToastKind.error) ∧
    (∀ e : Entity, ∀ d₂ : String, (handleMarkDone store id d).2 ≠
      (handleMarkDone [e] e.id d₂).2) ∧
    markEventOccurrenceDone store id d = (none, none) ∧
    markTaskOccurrenceDone store id d = (none, none) := by
  have hh : handleMarkDone store id d = (none, some ToastKind.error) := by
    unfold handleMarkDone
    rw [hnf]
  refine ⟨hh, ?_, ?_, ?_⟩
  · intro e d₂
    have hfound : List.find? (fun e₂ => e₂.id == e.id) [e] = some e := by
      simp [List.find?]
    unfold handleMarkDone
    rw [hnf, hfound]
    simp
  · unfold markEventOccurrenceDone
    rw [hnf]
  · unfold markTaskOccurrenceDone
    rw [hnf]

/-- Witness for C5: looking up any id in the empty store fails and is
reported as an error by the app.js path. -/
theorem C5_markDone_notFound_witness :
    handleMarkDone [] "e9" "2025-02-05" = (none, some ToastKind.error) :=
  (C5_markDone_notFound [] "e9" "2025-02-05" rfl).1

/-- C6 counterexample: the claim says the sequence delivered to
consumers is sorted ascending by (date, startTime or 00:00); but the
list-view comparator concatenates date and time with no separator, so
`occLater`, dated a day after `occEarlier`, compares as a tie with it
(NaN), the stable sort leaves the pair in input order, and the
delivered sequence is not sorted by the claimed key. -/
theorem C6_counterexample :
    listViewSort [occLater, occEarlier] = [occLater, occEarlier] ∧
    ¬ (listViewSort [occLater, occEarlier]).Pairwise specSortLe := by
  have h : listViewSort [occLater, occEarlier] = [occLater, occEarlier] := by
    unfold listViewSort
    exact List.mergeSort_of_sorted (by decide)
  refine ⟨h, ?_⟩
  rw [h]
  decide

theorem jsParseDate_of_length_ne (s : String) (h : s.data.length ≠ 10) :
    jsParseDate s = none := by
  unfold jsParseDate
  rw [if_neg (fun hc => h hc.1)]

/-- C6 amended: the day-detail lists are stably sorted ascending by
(startTime or 00:00) — the output is sorted by that key, is a
permutation of the input, and an input already in order is returned
unchanged (stability: no arbitrary tie-break) — while the list view's
comparator, which parses the date and time concatenated without a
separator, returns a tie whenever the first entry carries a start
time, so the month list is not in general sorted by date. -/
theorem C6_sort_behavior :
    (∀ l : List OccRecord, (dayDetailSort l).Pairwise (fun a b => dayDetailKey a ≤ dayDetailKey b)) ∧
    (∀ l : List OccRecord, (dayDetailSort l).Perm l) ∧
    (∀ l : List OccRecord, l.Pairwise (fun a b => dayDetailKey a ≤ dayDetailKey b) →
      dayDetailSort l = l) ∧
    (∀ a b : OccRecord, ∀ t : String, a.startDate.length = 10 → a.startTime = some t →
      t ≠ "" → listViewCompare a b = 0 ∧ listViewCompare b a = 0) := by
  have htrans : ∀ a b c : OccRecord, decide (dayDetailKey a ≤ dayDetailKey b) = true →
      decide (dayDetailKey b ≤ dayDetailKey c) = true →
      decide (dayDetailKey a ≤ dayDetailKey c) = true := by
    intro a b c h1 h2
    simp only [decide_eq_true_eq] at h1 h2 ⊢
    exact le_trans h1 h2
  have htotal : ∀ a b : OccRecord, (decide (dayDetailKey a ≤ dayDetailKey b) ||
      decide (dayDetailKey b ≤ dayDetailKey a)) = true := by
    intro a b
    simp only [Bool.or_eq_true, decide_eq_true_eq]
    exact le_total _ _
  refine ⟨?_, ?_, ?_, ?_⟩
  · intro l
    have h := List.sorted_mergeSort htrans htotal l
    exact h.imp (fun hab => by simpa using hab)
  · intro l
    exact List.mergeSort_perm l _
  · intro l hl
    unfold dayDetailSort
    exact List.mergeSort_of_sorted (hl.imp (fun hab => by simpa using hab))
  · intro a b t hlen hsome hne
    have htd : t.data ≠ [] := by
      intro hd
      apply hne
      cases t with
      | mk l2 =>
        simp only at hd
        rw [hd]
    have hka : listViewKey a = none := by
      unfold listViewKey
      rw [hsome]
      apply jsParseDate_of_length_ne
      have : (a.startDate ++ (some t : Option String).getD "").data =
          a.startDate.data ++ t.data := by
        simp [Option.getD]
      rw [this, List.length_append]
      have h10 : a.startDate.data.length = 10 := hlen
      have : t.data.length ≠ 0 := fun hz => htd (List.length_eq_zero.mp hz)
      omega
    constructor
    · unfold listViewCompare
      rw [hka]
    · unfold listViewCompare
      rw [hka]
      cases listViewKey b <;> rfl

/-- Witness for C6: a singleton day-detail list is returned unchanged,
and the timed March 2 occurrence ties with the timeless March 1 one in
the list-view comparator. -/
theorem C6_sort_behavior_witness :
    dayDetailSort [occEarlier] = [occEarlier] ∧ listViewCompare occLater occEarlier = 0 := by
  have h := C6_sort_behavior
  exact ⟨h.2.2.1 [occEarlier] (by simp),
    (h.2.2.2 occLater occEarlier "09:00" (by decide) rfl (by decide)).1⟩

end PersonalAssistant
